import Mathlib

/-!
A shallow embedding, in Lean 4, of `scripts/index_xlsx_files.py`: the release
indexer of the global-road-and-trail-climbs repository.  Strings are modelled
as lists of characters (`Str`), Python dicts as association lists, and the
HTTP layer as an explicit page-response feed.  Python's `str.lower` /
`str.title` are modelled on ASCII letters (the repository's tags and paths
are ASCII; the divergence on non-ASCII cased letters is irrelevant to every
statement below, whose non-ASCII inputs are caseless characters).
-/

namespace IndexXlsx

/-- Python strings are modelled as lists of characters. -/
abbrev Str := List Char

/-- Literal helper: the character list of a Lean string literal. -/
def strL (s : String) : Str := s.data

/-- The Unicode decimal-digit (category Nd) code-point ranges, which is
what Python's `\d` matches without `re.ASCII`.  Each range runs from a
script's zero digit to its nine, so a digit's decimal value is its code
point minus the start of its range. -/
def digitRanges : List (Nat × Nat) := [
  (48, 57), (1632, 1641), (1776, 1785), (1984, 1993), (2406, 2415),
  (2534, 2543), (2662, 2671), (2790, 2799), (2918, 2927), (3046, 3055),
  (3174, 3183), (3302, 3311), (3430, 3439), (3558, 3567), (3664, 3673),
  (3792, 3801), (3872, 3881), (4160, 4169), (4240, 4249), (6112, 6121),
  (6160, 6169), (6470, 6479), (6608, 6617), (6784, 6793), (6800, 6809),
  (6992, 7001), (7088, 7097), (7232, 7241), (7248, 7257), (42528, 42537),
  (43216, 43225), (43264, 43273), (43472, 43481), (43504, 43513),
  (43600, 43609), (44016, 44025), (65296, 65305), (66720, 66729),
  (68912, 68921), (69734, 69743), (69872, 69881), (69942, 69951),
  (70096, 70105), (70384, 70393), (70736, 70745), (70864, 70873),
  (71248, 71257), (71360, 71369), (71472, 71481), (71904, 71913),
  (72016, 72025), (72784, 72793), (73040, 73049), (73120, 73129),
  (92768, 92777), (92864, 92873), (93008, 93017), (120782, 120791),
  (120792, 120801), (120802, 120811), (120812, 120821), (120822, 120831),
  (123200, 123209), (123632, 123641), (125264, 125273), (130032, 130041)]

/-- Decimal digit test: `\d` of the `re` patterns in the script (Unicode
decimal digits, not just ASCII `0`-`9`). -/
def isDigitC (c : Char) : Bool :=
  digitRanges.any (fun r => decide (r.1 ≤ c.toNat) && decide (c.toNat ≤ r.2))

/-- The decimal value of a digit character, as `int` computes it (each
`digitRanges` entry starts at the script's zero digit). -/
def digitVal (c : Char) : Nat :=
  match digitRanges.find? (fun r => decide (r.1 ≤ c.toNat) && decide (c.toNat ≤ r.2)) with
  | some r => c.toNat - r.1
  | none => 0

/-- ASCII upper-case letter test. -/
def isUpperC (c : Char) : Bool := decide ('A' ≤ c) && decide (c ≤ 'Z')

/-- ASCII lower-case letter test. -/
def isLowerC (c : Char) : Bool := decide ('a' ≤ c) && decide (c ≤ 'z')

/-- ASCII model of Python's per-character lowercasing. -/
def lowerChar (c : Char) : Char :=
  if isUpperC c then Char.ofNat (c.toNat + 32) else c

/-- ASCII model of Python's per-character uppercasing. -/
def upperChar (c : Char) : Char :=
  if isLowerC c then Char.ofNat (c.toNat - 32) else c

/-- Model of `str.lower()` (ASCII letters). -/
def lowerStr (s : Str) : Str := s.map lowerChar

/-- First-match lookup in an association list; models `dict[key]` /
`key in dict` (the static tables and `index_data` have distinct keys). -/
def lookupA {α : Type} (t : List (Str × α)) (k : Str) : Option α :=
  match t with
  | [] => none
  | (k', v) :: rest => if k' = k then some v else lookupA rest k

/-- The `US_STATES_TO_PATH` table of the script. -/
def US_STATES_TO_PATH : List (Str × Str) := [
  (strL "alabama", strL "north-america/united-states-of-america/alabama"),
  (strL "alaska", strL "north-america/united-states-of-america/alaska"),
  (strL "arizona", strL "north-america/united-states-of-america/arizona"),
  (strL "arkansas", strL "north-america/united-states-of-america/arkansas"),
  (strL "california", strL "north-america/united-states-of-america/california"),
  (strL "colorado", strL "north-america/united-states-of-america/colorado"),
  (strL "connecticut", strL "north-america/united-states-of-america/connecticut"),
  (strL "delaware", strL "north-america/united-states-of-america/delaware"),
  (strL "district-of-columbia", strL "north-america/united-states-of-america/district-of-columbia"),
  (strL "florida", strL "north-america/united-states-of-america/florida"),
  (strL "georgia", strL "north-america/united-states-of-america/georgia"),
  (strL "hawaii", strL "north-america/united-states-of-america/hawaii"),
  (strL "idaho", strL "north-america/united-states-of-america/idaho"),
  (strL "illinois", strL "north-america/united-states-of-america/illinois"),
  (strL "indiana", strL "north-america/united-states-of-america/indiana"),
  (strL "iowa", strL "north-america/united-states-of-america/iowa"),
  (strL "kansas", strL "north-america/united-states-of-america/kansas"),
  (strL "kentucky", strL "north-america/united-states-of-america/kentucky"),
  (strL "louisiana", strL "north-america/united-states-of-america/louisiana"),
  (strL "maine", strL "north-america/united-states-of-america/maine"),
  (strL "maryland", strL "north-america/united-states-of-america/maryland"),
  (strL "massachusetts", strL "north-america/united-states-of-america/massachusetts"),
  (strL "michigan", strL "north-america/united-states-of-america/michigan"),
  (strL "minnesota", strL "north-america/united-states-of-america/minnesota"),
  (strL "mississippi", strL "north-america/united-states-of-america/mississippi"),
  (strL "missouri", strL "north-america/united-states-of-america/missouri"),
  (strL "montana", strL "north-america/united-states-of-america/montana"),
  (strL "nebraska", strL "north-america/united-states-of-america/nebraska"),
  (strL "nevada", strL "north-america/united-states-of-america/nevada"),
  (strL "new-hampshire", strL "north-america/united-states-of-america/new-hampshire"),
  (strL "new-jersey", strL "north-america/united-states-of-america/new-jersey"),
  (strL "new-mexico", strL "north-america/united-states-of-america/new-mexico"),
  (strL "new-york", strL "north-america/united-states-of-america/new-york"),
  (strL "north-carolina", strL "north-america/united-states-of-america/north-carolina"),
  (strL "north-dakota", strL "north-america/united-states-of-america/north-dakota"),
  (strL "ohio", strL "north-america/united-states-of-america/ohio"),
  (strL "oklahoma", strL "north-america/united-states-of-america/oklahoma"),
  (strL "oregon", strL "north-america/united-states-of-america/oregon"),
  (strL "pennsylvania", strL "north-america/united-states-of-america/pennsylvania"),
  (strL "rhode-island", strL "north-america/united-states-of-america/rhode-island"),
  (strL "south-carolina", strL "north-america/united-states-of-america/south-carolina"),
  (strL "south-dakota", strL "north-america/united-states-of-america/south-dakota"),
  (strL "tennessee", strL "north-america/united-states-of-america/tennessee"),
  (strL "texas", strL "north-america/united-states-of-america/texas"),
  (strL "utah", strL "north-america/united-states-of-america/utah"),
  (strL "vermont", strL "north-america/united-states-of-america/vermont"),
  (strL "virginia", strL "north-america/united-states-of-america/virginia"),
  (strL "washington", strL "north-america/united-states-of-america/washington"),
  (strL "west-virginia", strL "north-america/united-states-of-america/west-virginia"),
  (strL "wisconsin", strL "north-america/united-states-of-america/wisconsin"),
  (strL "wyoming", strL "north-america/united-states-of-america/wyoming"),
  (strL "puerto-rico", strL "north-america/united-states-of-america/puerto-rico"),
  (strL "us-virgin-islands", strL "north-america/united-states-of-america/us-virgin-islands")]

/-- The `EUROPE_COUNTRIES_TO_PATH` table of the script. -/
def EUROPE_COUNTRIES_TO_PATH : List (Str × Str) := [
  (strL "albania", strL "europe/albania"),
  (strL "andorra", strL "europe/andorra"),
  (strL "austria", strL "europe/austria"),
  (strL "azores", strL "europe/azores"),
  (strL "belarus", strL "europe/belarus"),
  (strL "belgium", strL "europe/belgium"),
  (strL "bosnia-herzegovina", strL "europe/bosnia-herzegovina"),
  (strL "bulgaria", strL "europe/bulgaria"),
  (strL "croatia", strL "europe/croatia"),
  (strL "cyprus", strL "europe/cyprus"),
  (strL "czech-republic", strL "europe/czech-republic"),
  (strL "denmark", strL "europe/denmark"),
  (strL "estonia", strL "europe/estonia"),
  (strL "faroe-islands", strL "europe/faroe-islands"),
  (strL "finland", strL "europe/finland"),
  (strL "france", strL "europe/france"),
  (strL "georgia", strL "europe/georgia"),
  (strL "germany", strL "europe/germany"),
  (strL "great-britain", strL "europe/great-britain"),
  (strL "greece", strL "europe/greece"),
  (strL "hungary", strL "europe/hungary"),
  (strL "iceland", strL "europe/iceland"),
  (strL "ireland-and-northern-ireland", strL "europe/ireland-and-northern-ireland"),
  (strL "isle-of-man", strL "europe/isle-of-man"),
  (strL "italy", strL "europe/italy"),
  (strL "kosovo", strL "europe/kosovo"),
  (strL "latvia", strL "europe/latvia"),
  (strL "liechtenstein", strL "europe/liechtenstein"),
  (strL "lithuania", strL "europe/lithuania"),
  (strL "luxembourg", strL "europe/luxembourg"),
  (strL "macedonia", strL "europe/macedonia"),
  (strL "malta", strL "europe/malta"),
  (strL "moldova", strL "europe/moldova"),
  (strL "monaco", strL "europe/monaco"),
  (strL "montenegro", strL "europe/montenegro"),
  (strL "netherlands", strL "europe/netherlands"),
  (strL "norway", strL "europe/norway"),
  (strL "poland", strL "europe/poland"),
  (strL "portugal", strL "europe/portugal"),
  (strL "romania", strL "europe/romania"),
  (strL "russia", strL "europe/russia"),
  (strL "serbia", strL "europe/serbia"),
  (strL "slovakia", strL "europe/slovakia"),
  (strL "slovenia", strL "europe/slovenia"),
  (strL "spain", strL "europe/spain"),
  (strL "sweden", strL "europe/sweden"),
  (strL "switzerland", strL "europe/switzerland"),
  (strL "turkey", strL "europe/turkey"),
  (strL "ukraine", strL "europe/ukraine")]

/-- The `OTHER_REGIONS_TO_PATH` table of the script. -/
def OTHER_REGIONS_TO_PATH : List (Str × Str) := [
  (strL "canada", strL "north-america/canada"),
  (strL "alberta", strL "north-america/canada/alberta"),
  (strL "british-columbia", strL "north-america/canada/british-columbia"),
  (strL "ontario", strL "north-america/canada/ontario"),
  (strL "quebec", strL "north-america/canada/quebec"),
  (strL "australia", strL "oceania/australia"),
  (strL "new-zealand", strL "oceania/new-zealand"),
  (strL "japan", strL "asia/japan"),
  (strL "brazil", strL "south-america/brazil"),
  (strL "argentina", strL "south-america/argentina"),
  (strL "chile", strL "south-america/chile"),
  (strL "colombia", strL "south-america/colombia")]

/-- Model of `get_region_path`: lowercase the token, look it up in the three
tables in priority order, and fall back to the lowercased token itself. -/
def get_region_path (tag_region : Str) : Str :=
  let tag_lower := lowerStr tag_region
  match lookupA US_STATES_TO_PATH tag_lower with
  | some p => p
  | none =>
    match lookupA EUROPE_COUNTRIES_TO_PATH tag_lower with
    | some p => p
    | none =>
      match lookupA OTHER_REGIONS_TO_PATH tag_lower with
      | some p => p
      | none => tag_lower

/-- Full-string match of the version group `\d+\.\d+\.\d+`.  Each digit run
is followed by a non-digit, so the greedy runs are forced and maximal munch
is exactly the regex semantics. -/
def parseVer (w : Str) : Bool :=
  decide (w.takeWhile isDigitC ≠ []) &&
    match w.dropWhile isDigitC with
    | [] => false
    | c1 :: r1 =>
      decide (c1 = '.') && decide (r1.takeWhile isDigitC ≠ []) &&
        match r1.dropWhile isDigitC with
        | [] => false
        | c2 :: r2 =>
          decide (c2 = '.') && decide (r2.takeWhile isDigitC ≠ []) &&
            decide (r2.dropWhile isDigitC = [])

/-- Match of `-v(\d+\.\d+\.\d+)$` against the whole rest of the tag,
returning the version group. -/
def vSuffixMatch : Str → Option Str
  | c1 :: c2 :: w =>
    if c1 = '-' ∧ c2 = 'v' ∧ parseVer w = true then some w else none
  | _ => none

/-- The backtracking loop of `re.match(r'^(.+?)-v(\d+\.\d+\.\d+)$', tag)`:
the non-greedy group grows one character at a time (`.` does not match a
newline), and at each length the whole remainder must match
`-v(\d+\.\d+\.\d+)$`. -/
def tagMatchGo (acc : Str) : Str → Option (Str × Str)
  | [] => none
  | c :: rest =>
    if c = '\n' then none
    else
      match vSuffixMatch rest with
      | some w => some (acc ++ [c], w)
      | none => tagMatchGo (acc ++ [c]) rest

/-- Python's `$` matches at the end of the string or just before one
trailing newline.  No character of the end-anchored patterns below (`.`
without DOTALL, `\d`, literal `-`, `v`, `.`, `xlsx`) can match a newline,
so an anchored match against `s` is exactly a full/suffix match against
`s` with one trailing newline removed. -/
def stripNL (s : Str) : Str :=
  if s.getLast? = some '\n' then s.dropLast else s

/-- Model of `extract_region_from_tag`; `none` models Python's
`(None, None)` result. -/
def extract_region_from_tag (tag_name : Str) : Option (Str × Str) :=
  tagMatchGo [] (stripNL tag_name)

/-- The backtracking loop of `re.match(r'^(.+?)_climbs', filename)`. -/
def fnMatchGo (acc : Str) : Str → Option Str
  | [] => none
  | c :: rest =>
    if c = '\n' then none
    else if (strL "_climbs").isPrefixOf rest then some (acc ++ [c])
    else fnMatchGo (acc ++ [c]) rest

/-- Model of `extract_region_from_filename`. -/
def extract_region_from_filename (filename : Str) : Option Str :=
  fnMatchGo [] filename

/-- Decimal value of a digit string (`int` applied to it). -/
def natOfDigits (ds : Str) : Nat := ds.foldl (fun a c => a * 10 + digitVal c) 0

/-- Character class `[\d,]`. -/
def isCommaDigit (c : Char) : Bool := isDigitC c || decide (c = ',')

/-- Python's `\s` on ASCII whitespace. -/
def isSpaceC (c : Char) : Bool :=
  decide (c = ' ') || decide (c = '\t') || decide (c = '\n') ||
    decide (c = '\r') || decide (c = '\x0b') || decide (c = '\x0c')

/-- Attempt of `lit\s*([\d,]+)` at the current position: the literal, then
greedily skipped whitespace, then a nonempty digit-or-comma group; the
result is `int(group.replace(',', ''))`.  In the corner where the group is
nonempty but all commas the script itself raises `ValueError`; it is
modelled as a non-match. -/
def tryCountAt (lit : Str) (s : Str) : Option Nat :=
  if lit.isPrefixOf s then
    let grp := ((s.drop lit.length).dropWhile isSpaceC).takeWhile isCommaDigit
    if grp = [] then none
    else
      let ds := grp.filter isDigitC
      if ds = [] then none else some (natOfDigits ds)
  else none

/-- Leftmost search (`re.search`) for `lit\s*([\d,]+)`. -/
def searchCount (lit : Str) : Str → Option Nat
  | [] => none
  | c :: rest =>
    match tryCountAt lit (c :: rest) with
    | some n => some n
    | none => searchCount lit rest

/-- Model of `extract_climb_count_from_release_body`: the old bolded form is
tried first, then the bulletized form. -/
def extract_climb_count_from_release_body (body : Str) : Option Nat :=
  match searchCount (strL "**Climb Count:**") body with
  | some n => some n
  | none => searchCount (strL "* Climbs:") body

/-- Attempt of `lit\s*(\d+)` at the current position. -/
def tryDigitsAt (lit : Str) (s : Str) : Option Nat :=
  if lit.isPrefixOf s then
    let grp := ((s.drop lit.length).dropWhile isSpaceC).takeWhile isDigitC
    if grp = [] then none else some (natOfDigits grp)
  else none

/-- Leftmost search (`re.search`) for `lit\s*(\d+)`. -/
def searchDigits (lit : Str) : Str → Option Nat
  | [] => none
  | c :: rest =>
    match tryDigitsAt lit (c :: rest) with
    | some n => some n
    | none => searchDigits lit rest

/-- Model of `extract_elevation_errors_from_release_body`. -/
def extract_elevation_errors_from_release_body (body : Str) : Option Nat :=
  searchDigits (strL "**Elevation Errors:**") body

/-- Recursion core of `replaceAll`: `skip` counts characters of an already
matched occurrence still to be consumed without re-matching. -/
def repGo (pat rep : Str) : Nat → Str → Str
  | _, [] => []
  | skip + 1, _ :: rest => repGo pat rep skip rest
  | 0, c :: rest =>
    if pat ≠ [] ∧ pat.isPrefixOf (c :: rest) then
      rep ++ repGo pat rep (pat.length - 1) rest
    else c :: repGo pat rep 0 rest

/-- Python's `str.replace`: every non-overlapping occurrence of `pat`
(nonempty at every call site below) is replaced left to right. -/
def replaceAll (s pat rep : Str) : Str := repGo pat rep 0 s

/-- Model of `str.title()` on ASCII letters: a letter is uppercased after a
non-letter and lowercased after a letter. -/
def titleGo (prevAlpha : Bool) : Str → Str
  | [] => []
  | c :: rest =>
    if isLowerC c || isUpperC c then
      (if prevAlpha then lowerChar c else upperChar c) :: titleGo true rest
    else c :: titleGo false rest

/-- Model of `str.title()` (ASCII). -/
def titleStr (s : Str) : Str := titleGo false s

/-- Model of `re.search(r'-(\d+)\.xlsx$', name)`, as it is used in the sort
key of `scan_releases`: the split index, `0` when there is no match.  The
pattern is end-anchored, so its digit group is forced to be the maximal
digit run just before the final `.xlsx`, and that run must be preceded by a
hyphen; the end anchor tolerates one trailing newline (`stripNL`). -/
def splitIdx (name : Str) : Nat :=
  let n := stripNL name
  if (strL ".xlsx").isSuffixOf n then
    let stem := n.take (n.length - 5)
    let revDigits := stem.reverse.takeWhile isDigitC
    if revDigits ≠ [] ∧ (stem.reverse.dropWhile isDigitC).head? = some '-' then
      natOfDigits revDigits.reverse
    else 0
  else 0

/-- The string component of the sort key in `scan_releases`:
`name.replace("-1.xlsx", ".xlsx").replace("-2.xlsx", ".xlsx")`. -/
def sortKeyName (name : Str) : Str :=
  replaceAll (replaceAll name (strL "-1.xlsx") (strL ".xlsx")) (strL "-2.xlsx") (strL ".xlsx")

/-- Code-point lexicographic strict order on strings (Python `<` on `str`). -/
def strLt : Str → Str → Bool
  | [], [] => false
  | [], _ :: _ => true
  | _ :: _, [] => false
  | a :: xs, b :: ys =>
    if a.toNat < b.toNat then true
    else if b.toNat < a.toNat then false
    else strLt xs ys

/-- Non-strict lexicographic order on sort keys (Python tuple comparison). -/
def keyLe (a b : Str × Nat) : Bool :=
  strLt a.1 b.1 || (decide (a.1 = b.1) && decide (a.2 ≤ b.2))

/-- The full sort key of `scan_releases` for one filename. -/
def nameKey (n : Str) : Str × Nat := (sortKeyName n, splitIdx n)

/-- The sort key of `scan_releases` on a zipped (name, size, url) triple. -/
def xlsxKey (x : Str × Nat × Str) : Str × Nat := nameKey x.1

/-- Ordering of xlsx triples by their sort keys. -/
def xlsxLe (x y : Str × Nat × Str) : Prop := keyLe (xlsxKey x) (xlsxKey y) = true

instance : DecidableRel xlsxLe := fun x y => by unfold xlsxLe; infer_instance

/-- Model of the stable `sorted(range(len(xlsx_files)), key=...)` pass of
`scan_releases` together with the three parallel-list permutations it
drives: a stable insertion sort of the zipped (name, size, url) triples. -/
def sortXlsx (l : List (Str × Nat × Str)) : List (Str × Nat × Str) :=
  List.insertionSort xlsxLe l

/-- A release asset as read by the script. -/
structure Asset where
  name : Str
  size : Nat
  browser_download_url : Str
deriving DecidableEq, Repr

/-- A release as read by the script. -/
structure Release where
  tag_name : Str
  html_url : Str
  published_at : Str
  body : Str
  assets : List Asset
deriving DecidableEq, Repr

/-- The per-region dictionary stored into `index_data` by `scan_releases`. -/
structure RegionEntry where
  region_name : Str
  version : Str
  release_tag : Str
  release_url : Str
  climb_count : Option Nat
  elevation_errors : Option Nat
  files : List Str
  download_urls : List Str
  file_sizes : List Nat
  total_size : Nat
  file_count : Nat
  has_split_files : Bool
  database_file : Option Str
  database_size : Nat
  database_url : Option Str
  published_at : Str
  last_updated : Option Str
deriving DecidableEq, Repr

/-- The accumulator of the per-asset classification loop in
`scan_releases`. -/
structure AssetScan where
  xlsx : List (Str × Nat × Str)
  sqlite_file : Option Str
  sqlite_size : Nat
  sqlite_url : Option Str
  region_name : Option Str
deriving DecidableEq, Repr

/-- The initial accumulator (`[]`, `None`, `0`, `None`, `None`). -/
def initialScan : AssetScan := ⟨[], none, 0, none, none⟩

/-- The classification test `name.endswith(".xlsx")`. -/
def isXlsxName (a : Asset) : Bool := (strL ".xlsx").isSuffixOf a.name

/-- The classification test `name.endswith(".sqlite")`. -/
def isSqliteName (a : Asset) : Bool := (strL ".sqlite").isSuffixOf a.name

/-- The per-asset classification loop body of `scan_releases`.  (The
filename parser never returns an empty string, so Python's falsy test
`if not region_name` is exactly the `none` test.) -/
def scanAsset (st : AssetScan) (a : Asset) : AssetScan :=
  if isXlsxName a then
    { st with
      xlsx := st.xlsx ++ [(a.name, a.size, a.browser_download_url)]
      region_name :=
        match st.region_name with
        | some n => some n
        | none => extract_region_from_filename a.name }
  else if isSqliteName a then
    { st with
      sqlite_file := some a.name
      sqlite_size := a.size
      sqlite_url := some a.browser_download_url
      region_name :=
        match st.region_name with
        | some n => some n
        | none => extract_region_from_filename a.name }
  else st

/-- The asset-classification accumulator after the asset loop of
`scan_releases` on one release. -/
def assetState (r : Release) : AssetScan :=
  r.assets.foldl scanAsset initialScan

/-- The region dictionary `scan_releases` builds for one non-skipped
release whose tag parsed as `(region_from_tag, version)`. -/
def buildEntry (r : Release) (region_from_tag version : Str) : RegionEntry :=
  let st := assetState r
  let region_name :=
    match st.region_name with
    | some n => n
    | none => titleStr (replaceAll region_from_tag (strL "-") (strL "_"))
  let sortedX := sortXlsx st.xlsx
  let xlsx_files := sortedX.map (fun x => x.1)
  let xlsx_sizes := sortedX.map (fun x => x.2.1)
  let xlsx_urls := sortedX.map (fun x => x.2.2)
  { region_name := replaceAll region_name (strL "_") (strL " ")
    version := version
    release_tag := r.tag_name
    release_url := r.html_url
    climb_count := extract_climb_count_from_release_body r.body
    elevation_errors := extract_elevation_errors_from_release_body r.body
    files := xlsx_files
    download_urls := xlsx_urls
    file_sizes := xlsx_sizes
    total_size := xlsx_sizes.sum
    file_count := xlsx_files.length
    has_split_files := decide (1 < xlsx_files.length)
    database_file := st.sqlite_file
    database_size := st.sqlite_size
    database_url := st.sqlite_url
    published_at := r.published_at
    last_updated :=
      if r.published_at = [] then none else some (r.published_at.take 10) }

/-- The per-release body of `scan_releases`: the region key and the entry
stored into `index_data`, or `none` when the release is skipped (tag not a
region tag, or no spreadsheet and no database asset). -/
def processRelease (r : Release) : Option (Str × RegionEntry) :=
  match extract_region_from_tag r.tag_name with
  | none => none
  | some (region_from_tag, version) =>
    if (assetState r).xlsx.isEmpty && (assetState r).sqlite_file.isNone then none
    else some (get_region_path region_from_tag, buildEntry r region_from_tag version)

/-- Python dict assignment `d[k] = v` on an association list: replace in
place, else append at the end (insertion order preserved). -/
def upsert (k : Str) (v : RegionEntry) :
    List (Str × RegionEntry) → List (Str × RegionEntry)
  | [] => [(k, v)]
  | (k', v') :: rest => if k' = k then (k, v) :: rest else (k', v') :: upsert k v rest

/-- One iteration of the release loop of `scan_releases` over the
`index_data` accumulator. -/
def scanStep (acc : List (Str × RegionEntry)) (r : Release) :
    List (Str × RegionEntry) :=
  match processRelease r with
  | none => acc
  | some (k, e) => upsert k e acc

/-- Model of `scan_releases`, on the already-fetched release list (the HTTP
paging itself is modelled by `fetch_releases` below). -/
def scan_releases (releases : List Release) : List (Str × RegionEntry) :=
  releases.foldl scanStep []

/-- The entry a single release contributes under key `k`, if any: used to
state which of several same-key releases survives in `index_data`. -/
def releaseKeyed (k : Str) (r : Release) : Option RegionEntry :=
  match processRelease r with
  | some (k', e) => if k' = k then some e else none
  | none => none

/-- One page of the releases feed: a successful JSON list, or a response
that is either a non-200 status or a network exception (the script treats
both the same way: log and break). -/
inductive PageResp
  | ok (releases : List Release)
  | fail
deriving DecidableEq, Repr

/-- The fixed page size of `fetch_releases`. -/
def per_page : Nat := 100

/-- The `while True` pagination loop of `fetch_releases`, with explicit
fuel; the result is the collected release list together with the list of
page numbers actually requested, in request order. -/
def fetchLoop (feed : Nat → PageResp) : Nat → Nat → List Release × List Nat
  | 0, _ => ([], [])
  | fuel + 1, page =>
    match feed page with
    | .fail => ([], [page])
    | .ok rs =>
      if rs.length = 0 then ([], [page])
      else if rs.length < per_page then (rs, [page])
      else
        let next := fetchLoop feed fuel (page + 1)
        (rs ++ next.1, page :: next.2)

/-- Model of `fetch_releases`: pages are requested starting at 1. -/
def fetch_releases (feed : Nat → PageResp) (fuel : Nat) : List Release × List Nat :=
  fetchLoop feed fuel 1

/-- The releases a page response contributes to the collected list (a
failed or non-200 request contributes nothing). -/
def pageContent : PageResp → List Release
  | .ok rs => rs
  | .fail => []

/-- The halting condition of the pagination loop at a page response: a
failed or non-200 request, or an empty or short page. -/
def isLastPage (p : PageResp) : Prop :=
  match p with
  | .fail => True
  | .ok rs => rs.length < per_page

instance : DecidablePred isLastPage := fun p => by
  cases p with
  | ok rs => exact inferInstanceAs (Decidable (rs.length < per_page))
  | fail => exact inferInstanceAs (Decidable True)


/-- The fields of a region dictionary that `create_summary_stats` reads,
each optional: `none` models a missing key (or, where the script writes
`None` itself, that value — `dict.get` treats the two alike). -/
structure RegionView where
  file_count : Option Nat
  total_size : Option Nat
  database_file : Option Str
  database_size : Option Nat
  climb_count : Option Nat
deriving DecidableEq, Repr

/-- The view `create_summary_stats` takes of an entry built by
`scan_releases`. -/
def entryView (e : RegionEntry) : RegionView :=
  ⟨some e.file_count, some e.total_size, e.database_file, some e.database_size, e.climb_count⟩

/-- The summary dictionary returned by `create_summary_stats`. -/
structure SummaryStats where
  total_regions : Nat
  total_xlsx_files : Nat
  total_sqlite_files : Nat
  total_xlsx_size_bytes : Nat
  total_sqlite_size_bytes : Nat
  total_size_mb : ℚ
  total_climbs : Nat
deriving DecidableEq, Repr

/-- Round half to even on rationals (Python's `round` on an exact value). -/
def roundHalfEven (q : ℚ) : ℤ :=
  if q - ⌊q⌋ < 1/2 then ⌊q⌋
  else if 1/2 < q - ⌊q⌋ then ⌊q⌋ + 1
  else if ⌊q⌋ % 2 = 0 then ⌊q⌋ else ⌊q⌋ + 1

/-- Model of `round(x, 1)`; the script's float arithmetic is modelled as
exact rational arithmetic. -/
def round1 (q : ℚ) : ℚ := (roundHalfEven (q * 10) : ℚ) / 10

/-- Model of `create_summary_stats`.  `region.get(field, 0)` is
`field.getD 0`; the truthiness test `if region.get("database_file")` is
false exactly for a missing key, `None`, or an empty name; and
`region.get("climb_count") or 0` coincides with `getD 0` (`0 or 0` is
`0`). -/
def create_summary_stats (regions : List RegionView) : SummaryStats :=
  let total_xlsx_size := (regions.map (fun r => r.total_size.getD 0)).sum
  let total_sqlite_size := (regions.map (fun r => r.database_size.getD 0)).sum
  { total_regions := regions.length
    total_xlsx_files := (regions.map (fun r => r.file_count.getD 0)).sum
    total_sqlite_files := (regions.filter (fun r => !(r.database_file.getD []).isEmpty)).length
    total_xlsx_size_bytes := total_xlsx_size
    total_sqlite_size_bytes := total_sqlite_size
    total_size_mb := round1 (((total_xlsx_size + total_sqlite_size : ℕ) : ℚ) / (1024 * 1024))
    total_climbs := (regions.map (fun r => r.climb_count.getD 0)).sum }

/-- Concrete test release: a region release carrying two database assets. -/
def relTwoSqlite : Release :=
  ⟨strL "foo-v1.0.0", strL "", strL "", strL "",
    [⟨strL "a.sqlite", 1, strL "ua"⟩, ⟨strL "b.sqlite", 2, strL "ub"⟩]⟩

/-- Concrete test release: one spreadsheet asset with a "-1" split suffix. -/
def relOneSplitXlsx : Release :=
  ⟨strL "bar-v1.0.0", strL "", strL "", strL "",
    [⟨strL "bar-1.xlsx", 3, strL "u"⟩]⟩

/-- Concrete test release: spreadsheet assets "foo-1.xlsx" and "foo-3.xlsx"
(split indices 1 and 3 of one logical base name). -/
def relSplitThree : Release :=
  ⟨strL "foo-v1.0.0", strL "", strL "", strL "",
    [⟨strL "foo-1.xlsx", 1, strL "u1"⟩, ⟨strL "foo-3.xlsx", 2, strL "u3"⟩]⟩

/-- Concrete test release with no tag and no assets, used to pad a full
first page of a two-page feed. -/
def padRelease : Release := ⟨[], [], [], [], []⟩

/-- Concrete two-page feed: a full page 1, a one-release page 2, and
failures beyond. -/
def feedTwoPages : Nat → PageResp := fun p =>
  if p = 1 then .ok (List.replicate 100 padRelease)
  else if p = 2 then .ok [relTwoSqlite]
  else .fail

/-- Spec-side definition for claim C2 (not part of the script): the base
name in the claim's sense, i.e. the name with a trailing `-N` split suffix
stripped for ANY digit run N before the ".xlsx" extension. -/
def genericBase (name : Str) : Str :=
  if (strL ".xlsx").isSuffixOf name then
    let stem := name.take (name.length - 5)
    if stem.reverse.takeWhile isDigitC ≠ [] ∧
        (stem.reverse.dropWhile isDigitC).head? = some '-' then
      ((stem.reverse.dropWhile isDigitC).drop 1).reverse ++ strL ".xlsx"
    else name
  else name

/-!  Theorems.  -/

/-- C3 (counterexample): the token "Foo" is absent from all three lookup
tables under case-insensitive comparison, yet `get_region_path` does not
return it unchanged (it returns the lowercased form "foo"). -/
theorem get_region_path_not_unchanged_on_mixed_case :
    lookupA US_STATES_TO_PATH (lowerStr (strL "Foo")) = none ∧
    lookupA EUROPE_COUNTRIES_TO_PATH (lowerStr (strL "Foo")) = none ∧
    lookupA OTHER_REGIONS_TO_PATH (lowerStr (strL "Foo")) = none ∧
    get_region_path (strL "Foo") ≠ strL "Foo" :=
  ⟨by decide, by decide, by decide, by decide⟩

/-- C3 (amended): for every token whose lowercased form is in none of the
three lookup tables, `get_region_path` returns the lowercased token (hence
the token unchanged whenever it is already lowercase), and it is total. -/
theorem get_region_path_unknown_returns_lowercased (t : Str)
    (h1 : lookupA US_STATES_TO_PATH (lowerStr t) = none)
    (h2 : lookupA EUROPE_COUNTRIES_TO_PATH (lowerStr t) = none)
    (h3 : lookupA OTHER_REGIONS_TO_PATH (lowerStr t) = none) :
    get_region_path t = lowerStr t := by
  unfold get_region_path
  simp only [h1, h2, h3]

/-- Witness for C3's amended theorem at the unknown token "Foo". -/
theorem get_region_path_unknown_returns_lowercased_witness :
    lookupA US_STATES_TO_PATH (lowerStr (strL "Foo")) = none ∧
    lookupA EUROPE_COUNTRIES_TO_PATH (lowerStr (strL "Foo")) = none ∧
    lookupA OTHER_REGIONS_TO_PATH (lowerStr (strL "Foo")) = none ∧
    get_region_path (strL "Foo") = lowerStr (strL "Foo") :=
  ⟨by decide, by decide, by decide,
    get_region_path_unknown_returns_lowercased (strL "Foo") (by decide) (by decide) (by decide)⟩

/-- C5: for a token found (case-insensitively) in some table,
`get_region_path` returns the value of the highest-priority table that
contains it: the US-state table first, then the European-country table,
then the other-regions table. -/
theorem get_region_path_priority (t : Str) :
    (∀ v, lookupA US_STATES_TO_PATH (lowerStr t) = some v → get_region_path t = v) ∧
    (lookupA US_STATES_TO_PATH (lowerStr t) = none →
      ∀ v, lookupA EUROPE_COUNTRIES_TO_PATH (lowerStr t) = some v → get_region_path t = v) ∧
    (lookupA US_STATES_TO_PATH (lowerStr t) = none →
      lookupA EUROPE_COUNTRIES_TO_PATH (lowerStr t) = none →
      ∀ v, lookupA OTHER_REGIONS_TO_PATH (lowerStr t) = some v → get_region_path t = v) := by
  refine ⟨fun v hv => ?_, fun h1 v hv => ?_, fun h1 h2 v hv => ?_⟩
  · unfold get_region_path; simp only [hv]
  · unfold get_region_path; simp only [h1, hv]
  · unfold get_region_path; simp only [h1, h2, hv]

/-- Witness for C5 at the token "georgia", present in both the US-state and
the European-country tables and resolved to its US-state path. -/
theorem get_region_path_priority_witness :
    lookupA US_STATES_TO_PATH (lowerStr (strL "georgia")) =
      some (strL "north-america/united-states-of-america/georgia") ∧
    lookupA EUROPE_COUNTRIES_TO_PATH (lowerStr (strL "georgia")) =
      some (strL "europe/georgia") ∧
    get_region_path (strL "georgia") =
      strL "north-america/united-states-of-america/georgia" :=
  ⟨by decide, by decide,
    (get_region_path_priority (strL "georgia")).1 _ (by decide)⟩

/-- C4 (counterexample): on three regions with spreadsheet size totals 100,
200 and absent, `create_summary_stats` does report 300 total bytes, but its
one-decimal megabyte figure is not 0.0003: `round(300/1048576, 1)` is 0.0. -/
theorem create_summary_stats_mb_not_0003 :
    (create_summary_stats
      [⟨none, some 100, none, none, none⟩, ⟨none, some 200, none, none, none⟩,
        ⟨none, none, none, none, none⟩]).total_xlsx_size_bytes = 300 ∧
    (create_summary_stats
      [⟨none, some 100, none, none, none⟩, ⟨none, some 200, none, none, none⟩,
        ⟨none, none, none, none, none⟩]).total_size_mb ≠ (3 : ℚ) / 10000 :=
  ⟨by decide, by norm_num [create_summary_stats, round1, roundHalfEven]⟩

/-- C4 (amended): on three regions with spreadsheet size totals 100, 200 and
absent (treated as zero), `create_summary_stats` reports 300 total
spreadsheet bytes and 0.0 MB, since one-decimal rounding of 300/(1024*1024)
gives 0.0. -/
theorem create_summary_stats_small_sizes :
    (create_summary_stats
      [⟨none, some 100, none, none, none⟩, ⟨none, some 200, none, none, none⟩,
        ⟨none, none, none, none, none⟩]).total_xlsx_size_bytes = 300 ∧
    (create_summary_stats
      [⟨none, some 100, none, none, none⟩, ⟨none, some 200, none, none, none⟩,
        ⟨none, none, none, none, none⟩]).total_size_mb = 0 :=
  ⟨by decide, by norm_num [create_summary_stats, round1, roundHalfEven]⟩

/-- Helper: a name ending in ".sqlite" does not end in ".xlsx". -/
theorem sqlite_not_xlsx {n : Str} (h7 : (strL ".sqlite").isSuffixOf n = true) :
    (strL ".xlsx").isSuffixOf n = false := by
  by_contra hx
  rw [Bool.not_eq_false, List.isSuffixOf_iff_suffix] at hx
  rw [List.isSuffixOf_iff_suffix] at h7
  obtain ⟨t1, rfl⟩ := h7
  obtain ⟨t2, he⟩ := hx
  have h1 := congrArg (fun l => l.reverse.head?) he
  simp only [List.reverse_append] at h1
  have e1 : (strL ".sqlite").reverse = 'e' :: strL "tilqs." := by decide
  have e2 : (strL ".xlsx").reverse = 'x' :: strL "slx." := by decide
  rw [e1, e2] at h1
  simp at h1

/-- Helper: after the asset loop, the three database fields hold the data
of the last asset whose name ends in ".sqlite", if any. -/
theorem foldl_scanAsset_sqlite (assets : List Asset) (st : AssetScan) :
    ((assets.foldl scanAsset st).sqlite_file,
      (assets.foldl scanAsset st).sqlite_size,
      (assets.foldl scanAsset st).sqlite_url) =
      (match (assets.filter isSqliteName).getLast? with
        | some a => (some a.name, a.size, some a.browser_download_url)
        | none => (st.sqlite_file, st.sqlite_size, st.sqlite_url)) := by
  induction assets generalizing st with
  | nil => simp
  | cons a rest ih =>
    rw [List.foldl_cons]
    by_cases hx : isXlsxName a = true
    · have hs : isSqliteName a = false := by
        by_contra hcon
        rw [Bool.not_eq_false] at hcon
        have := sqlite_not_xlsx (n := a.name) hcon
        rw [isXlsxName] at hx
        rw [this] at hx
        cases hx
      have hst : scanAsset st a =
          { st with
            xlsx := st.xlsx ++ [(a.name, a.size, a.browser_download_url)]
            region_name :=
              match st.region_name with
              | some n => some n
              | none => extract_region_from_filename a.name } := by
        simp [scanAsset, hx]
      rw [hst, List.filter_cons_of_neg (by simp [hs]), ih]
    · by_cases hs : isSqliteName a = true
      · have hst : scanAsset st a =
            { st with
              sqlite_file := some a.name
              sqlite_size := a.size
              sqlite_url := some a.browser_download_url
              region_name :=
                match st.region_name with
                | some n => some n
                | none => extract_region_from_filename a.name } := by
          simp [scanAsset, hx, hs]
        rw [hst, List.filter_cons_of_pos hs, ih]
        cases hrest : (rest.filter isSqliteName) with
        | nil => simp
        | cons b l => rfl
      · have hst : scanAsset st a = st := by simp [scanAsset, hx, hs]
        rw [hst, List.filter_cons_of_neg (by simp [hs]), ih]

/-- Helper: inversion of `processRelease` on a non-skipped release. -/
theorem processRelease_eq_some {r : Release} {k : Str} {e : RegionEntry}
    (h : processRelease r = some (k, e)) :
    ∃ tok ver, extract_region_from_tag r.tag_name = some (tok, ver) ∧
      k = get_region_path tok ∧ e = buildEntry r tok ver := by
  unfold processRelease at h
  split at h
  next => cases h
  next tok ver heq =>
    split at h
    next => cases h
    next =>
      injection h with h'
      exact ⟨tok, ver, heq, (congrArg Prod.fst h').symm, (congrArg Prod.snd h').symm⟩

/-- C1 (counterexample): for a release whose asset list holds the two
database assets "a.sqlite" then "b.sqlite", `scan_releases` records
"b.sqlite" (the last one), not the first one, in the database fields. -/
theorem scan_releases_database_not_first :
    (scan_releases [relTwoSqlite]).map
      (fun p => (p.1, p.2.database_file, p.2.database_size, p.2.database_url)) =
      [(strL "foo", some (strL "b.sqlite"), 2, some (strL "ub"))] ∧
    strL "b.sqlite" ≠ strL "a.sqlite" :=
  ⟨by decide, by decide⟩

/-- C1 (amended): for every region entry built by `scan_releases`, the
database_file/database_size/database_url fields record the LAST asset with
a ".sqlite" extension in the asset list (size 0 and no name/url when there
is none); surplus database assets cause no error. -/
theorem processRelease_database_last (r : Release) (k : Str) (e : RegionEntry)
    (h : processRelease r = some (k, e)) :
    e.database_file = ((r.assets.filter isSqliteName).getLast?).map Asset.name ∧
    e.database_size = (((r.assets.filter isSqliteName).getLast?).map Asset.size).getD 0 ∧
    e.database_url =
      ((r.assets.filter isSqliteName).getLast?).map Asset.browser_download_url := by
  obtain ⟨tok, ver, htag, hk, he⟩ := processRelease_eq_some h
  subst he
  have hproj : (buildEntry r tok ver).database_file = (assetState r).sqlite_file ∧
      (buildEntry r tok ver).database_size = (assetState r).sqlite_size ∧
      (buildEntry r tok ver).database_url = (assetState r).sqlite_url := ⟨rfl, rfl, rfl⟩
  have h3 : ((assetState r).sqlite_file, (assetState r).sqlite_size,
      (assetState r).sqlite_url) =
      (match (r.assets.filter isSqliteName).getLast? with
        | some a => (some a.name, a.size, some a.browser_download_url)
        | none => (initialScan.sqlite_file, initialScan.sqlite_size,
            initialScan.sqlite_url)) :=
    foldl_scanAsset_sqlite r.assets initialScan
  cases hlast : (r.assets.filter isSqliteName).getLast? with
  | none =>
    rw [hlast] at h3
    simp only [Prod.mk.injEq] at h3
    obtain ⟨f1, f2, f3⟩ := h3
    exact ⟨by rw [hproj.1, f1]; rfl, by rw [hproj.2.1, f2]; rfl,
      by rw [hproj.2.2, f3]; rfl⟩
  | some a =>
    rw [hlast] at h3
    simp only [Prod.mk.injEq] at h3
    obtain ⟨f1, f2, f3⟩ := h3
    exact ⟨by rw [hproj.1, f1]; rfl, by rw [hproj.2.1, f2]; rfl,
      by rw [hproj.2.2, f3]; rfl⟩

/-- Witness for C1 at a release with two database assets. -/
theorem processRelease_database_last_witness :
    processRelease relTwoSqlite =
      some (strL "foo", buildEntry relTwoSqlite (strL "foo") (strL "1.0.0")) ∧
    (buildEntry relTwoSqlite (strL "foo") (strL "1.0.0")).database_file =
      ((relTwoSqlite.assets.filter isSqliteName).getLast?).map Asset.name :=
  ⟨by decide,
    (processRelease_database_last relTwoSqlite (strL "foo")
      (buildEntry relTwoSqlite (strL "foo") (strL "1.0.0")) (by decide)).1⟩

/-- Helper: after the asset loop, the xlsx triple list is the ".xlsx"
assets in asset-list order. -/
theorem foldl_scanAsset_xlsx (assets : List Asset) (st : AssetScan) :
    (assets.foldl scanAsset st).xlsx =
      st.xlsx ++ (assets.filter isXlsxName).map
        (fun a => (a.name, a.size, a.browser_download_url)) := by
  induction assets generalizing st with
  | nil => simp
  | cons a rest ih =>
    rw [List.foldl_cons]
    by_cases hx : isXlsxName a = true
    · have hst : (scanAsset st a).xlsx = st.xlsx ++ [(a.name, a.size, a.browser_download_url)] := by
        simp [scanAsset, hx]
      have hst2 : scanAsset st a =
          { st with
            xlsx := st.xlsx ++ [(a.name, a.size, a.browser_download_url)]
            region_name :=
              match st.region_name with
              | some n => some n
              | none => extract_region_from_filename a.name } := by
        simp [scanAsset, hx]
      rw [hst2, List.filter_cons_of_pos hx, ih]
      simp
    · have hst2 : (scanAsset st a).xlsx = st.xlsx := by
        by_cases hs : isSqliteName a = true <;> simp [scanAsset, hx, hs]
      have : (rest.foldl scanAsset (scanAsset st a)).xlsx =
          (scanAsset st a).xlsx ++ (rest.filter isXlsxName).map
            (fun a => (a.name, a.size, a.browser_download_url)) := ih _
      rw [this, hst2, List.filter_cons_of_neg (by simp [hx])]

/-- C10: for every region entry built by `scan_releases`, has_split_files
is true iff file_count exceeds 1, and file_count is exactly the number of
".xlsx" assets of the release — split-suffix spelling of the names plays no
role. -/
theorem processRelease_split_flag (r : Release) (k : Str) (e : RegionEntry)
    (h : processRelease r = some (k, e)) :
    e.has_split_files = decide (1 < e.file_count) ∧
    e.file_count = (r.assets.filter isXlsxName).length := by
  obtain ⟨tok, ver, htag, hk, he⟩ := processRelease_eq_some h
  subst he
  refine ⟨rfl, ?_⟩
  show ((sortXlsx (assetState r).xlsx).map (fun x => x.1)).length = _
  rw [List.length_map]
  have hlen : (sortXlsx (assetState r).xlsx).length = (assetState r).xlsx.length :=
    (List.perm_insertionSort xlsxLe _).length_eq
  rw [hlen]
  have hx : (assetState r).xlsx =
      [] ++ (r.assets.filter isXlsxName).map
        (fun a => (a.name, a.size, a.browser_download_url)) :=
    foldl_scanAsset_xlsx r.assets initialScan
  rw [hx]
  simp

/-- Witness for C10: a release with a single "-1"-suffixed spreadsheet has
has_split_files = false. -/
theorem processRelease_split_flag_witness :
    processRelease relOneSplitXlsx =
      some (strL "bar", buildEntry relOneSplitXlsx (strL "bar") (strL "1.0.0")) ∧
    (buildEntry relOneSplitXlsx (strL "bar") (strL "1.0.0")).has_split_files =
      decide (1 < (buildEntry relOneSplitXlsx (strL "bar") (strL "1.0.0")).file_count) ∧
    (buildEntry relOneSplitXlsx (strL "bar") (strL "1.0.0")).file_count =
      (relOneSplitXlsx.assets.filter isXlsxName).length ∧
    (buildEntry relOneSplitXlsx (strL "bar") (strL "1.0.0")).has_split_files = false :=
  ⟨by decide,
    (processRelease_split_flag relOneSplitXlsx (strL "bar")
      (buildEntry relOneSplitXlsx (strL "bar") (strL "1.0.0")) (by decide)).1,
    (processRelease_split_flag relOneSplitXlsx (strL "bar")
      (buildEntry relOneSplitXlsx (strL "bar") (strL "1.0.0")) (by decide)).2,
    by decide⟩

/-- Helper: transitivity of code-point lexicographic string order. -/
theorem strLt_trans (a : Str) : ∀ b c, strLt a b = true → strLt b c = true →
    strLt a c = true := by
  induction a with
  | nil =>
    intro b c hab hbc
    cases b with
    | nil => cases hab
    | cons y ys =>
      cases c with
      | nil => cases hbc
      | cons z zs => rfl
  | cons x xs ih =>
    intro b c hab hbc
    cases b with
    | nil => cases hab
    | cons y ys =>
      cases c with
      | nil => cases hbc
      | cons z zs =>
        unfold strLt at hab hbc ⊢
        by_cases hxy : x.toNat < y.toNat
        · by_cases hyz : y.toNat < z.toNat
          · rw [if_pos (show x.toNat < z.toNat by omega)]
          · rw [if_neg hyz] at hbc
            by_cases hzy : z.toNat < y.toNat
            · rw [if_pos hzy] at hbc; cases hbc
            · rw [if_pos (show x.toNat < z.toNat by omega)]
        · rw [if_neg hxy] at hab
          by_cases hyx : y.toNat < x.toNat
          · rw [if_pos hyx] at hab; cases hab
          · rw [if_neg hyx] at hab
            by_cases hyz : y.toNat < z.toNat
            · rw [if_pos (show x.toNat < z.toNat by omega)]
            · rw [if_neg hyz] at hbc
              by_cases hzy : z.toNat < y.toNat
              · rw [if_pos hzy] at hbc; cases hbc
              · rw [if_neg hzy] at hbc
                rw [if_neg (show ¬ x.toNat < z.toNat by omega),
                  if_neg (show ¬ z.toNat < x.toNat by omega)]
                exact ih ys zs hab hbc

/-- Helper: asymmetry of code-point lexicographic string order. -/
theorem strLt_asymm (a : Str) : ∀ b, strLt a b = true → strLt b a = false := by
  induction a with
  | nil =>
    intro b h
    cases b with
    | nil => cases h
    | cons y ys => rfl
  | cons x xs ih =>
    intro b h
    cases b with
    | nil => cases h
    | cons y ys =>
      unfold strLt at h ⊢
      by_cases hxy : x.toNat < y.toNat
      · rw [if_neg (show ¬ y.toNat < x.toNat by omega), if_pos hxy]
      · rw [if_neg hxy] at h
        by_cases hyx : y.toNat < x.toNat
        · rw [if_pos hyx] at h; cases h
        · rw [if_neg hyx] at h
          rw [if_neg hyx, if_neg hxy]
          exact ih ys h

/-- Helper: two strings neither of which is lexicographically below the
other are equal. -/
theorem strLt_connex (a : Str) : ∀ b, strLt a b = false → strLt b a = false →
    a = b := by
  induction a with
  | nil =>
    intro b h1 _
    cases b with
    | nil => rfl
    | cons y ys => cases h1
  | cons x xs ih =>
    intro b h1 h2
    cases b with
    | nil => cases h2
    | cons y ys =>
      unfold strLt at h1 h2
      by_cases hxy : x.toNat < y.toNat
      · rw [if_pos hxy] at h1; cases h1
      · by_cases hyx : y.toNat < x.toNat
        · rw [if_pos hyx] at h2; cases h2
        · rw [if_neg hxy, if_neg hyx] at h1
          rw [if_neg hyx, if_neg hxy] at h2
          have h3 : x.toNat = y.toNat := by omega
          have hc : x = y := Char.ext (UInt32.ext h3)
          rw [hc, ih ys h1 h2]

/-- Helper: totality of the tuple order on sort keys. -/
theorem keyLe_total (x y : Str × Nat) : keyLe x y = true ∨ keyLe y x = true := by
  unfold keyLe
  by_cases h1 : strLt x.1 y.1 = true
  · left; simp [h1]
  · by_cases h2 : strLt y.1 x.1 = true
    · right; simp [h2]
    · have he : x.1 = y.1 :=
        strLt_connex x.1 y.1 (by simpa using h1) (by simpa using h2)
      rcases Nat.le_total x.2 y.2 with h3 | h3
      · left; simp [he, h3]
      · right; simp [he.symm, h3]

/-- Helper: transitivity of the tuple order on sort keys. -/
theorem keyLe_trans (x y z : Str × Nat) (hxy : keyLe x y = true)
    (hyz : keyLe y z = true) : keyLe x z = true := by
  unfold keyLe at hxy hyz ⊢
  simp only [Bool.or_eq_true, Bool.and_eq_true, decide_eq_true_eq] at hxy hyz ⊢
  rcases hxy with h1 | ⟨h1, h1n⟩
  · rcases hyz with h2 | ⟨h2, h2n⟩
    · exact Or.inl (strLt_trans _ _ _ h1 h2)
    · exact Or.inl (h2 ▸ h1)
  · rcases hyz with h2 | ⟨h2, h2n⟩
    · exact Or.inl (h1 ▸ h2)
    · exact Or.inr ⟨h1.trans h2, h1n.trans h2n⟩

instance : IsTotal (Str × Nat × Str) xlsxLe :=
  ⟨fun x y => keyLe_total (xlsxKey x) (xlsxKey y)⟩

instance : IsTrans (Str × Nat × Str) xlsxLe :=
  ⟨fun x y z hxy hyz => keyLe_trans (xlsxKey x) (xlsxKey y) (xlsxKey z) hxy hyz⟩

/-- C2 (amended): the files of every region entry built by `scan_releases`
are a permutation of the release's ".xlsx" asset names, ordered ascending
by the key the code actually uses: the name with all occurrences of
"-1.xlsx" and "-2.xlsx" replaced by ".xlsx" (NOT a generic `-N` strip),
then the numeric split index. -/
theorem scan_files_sorted_by_narrow_key (r : Release) (k : Str) (e : RegionEntry)
    (h : processRelease r = some (k, e)) :
    e.files.Pairwise (fun n1 n2 => keyLe (nameKey n1) (nameKey n2) = true) ∧
    e.files.Perm ((r.assets.filter isXlsxName).map Asset.name) := by
  obtain ⟨tok, ver, htag, hk, he⟩ := processRelease_eq_some h
  subst he
  constructor
  · have hs : List.Sorted xlsxLe (sortXlsx (assetState r).xlsx) :=
      List.sorted_insertionSort xlsxLe _
    show List.Pairwise (fun n1 n2 => keyLe (nameKey n1) (nameKey n2) = true)
      ((sortXlsx (assetState r).xlsx).map (fun x => x.1))
    refine List.Pairwise.map (fun x => x.1) (fun a b hab => ?_) hs
    exact hab
  · show ((sortXlsx (assetState r).xlsx).map (fun x => x.1)).Perm
      ((r.assets.filter isXlsxName).map Asset.name)
    have hp : (sortXlsx (assetState r).xlsx).Perm (assetState r).xlsx :=
      List.perm_insertionSort xlsxLe _
    have hpm := hp.map (fun x => x.1)
    have hx : (assetState r).xlsx =
        [] ++ (r.assets.filter isXlsxName).map
          (fun a => (a.name, a.size, a.browser_download_url)) :=
      foldl_scanAsset_xlsx r.assets initialScan
    have hm : ((assetState r).xlsx).map (fun x => x.1) =
        (r.assets.filter isXlsxName).map Asset.name := by
      rw [hx]
      simp [List.map_map, Function.comp]
    rw [hm] at hpm
    exact hpm

/-- C2 (counterexample): for spreadsheet assets "foo-1.xlsx" and
"foo-3.xlsx" — equal base names and split indices 1 < 3 under the claim's
generic `-N` rule — `scan_releases` outputs them as
["foo-3.xlsx", "foo-1.xlsx"], which is not ascending under the claimed
(base name, split index) key: the code strips only "-1.xlsx" and
"-2.xlsx". -/
theorem scan_releases_split_sort_not_generic :
    (scan_releases [relSplitThree]).map (fun p => p.2.files) =
      [[strL "foo-3.xlsx", strL "foo-1.xlsx"]] ∧
    genericBase (strL "foo-3.xlsx") = genericBase (strL "foo-1.xlsx") ∧
    splitIdx (strL "foo-1.xlsx") < splitIdx (strL "foo-3.xlsx") ∧
    ¬ ([strL "foo-3.xlsx", strL "foo-1.xlsx"].Pairwise
        (fun n1 n2 => keyLe (genericBase n1, splitIdx n1)
          (genericBase n2, splitIdx n2) = true)) :=
  ⟨by decide, by decide, by decide, by decide⟩

/-- Witness for C2's amended theorem at the "foo-1.xlsx"/"foo-3.xlsx"
release. -/
theorem scan_files_sorted_witness :
    processRelease relSplitThree =
      some (strL "foo", buildEntry relSplitThree (strL "foo") (strL "1.0.0")) ∧
    (buildEntry relSplitThree (strL "foo") (strL "1.0.0")).files.Pairwise
      (fun n1 n2 => keyLe (nameKey n1) (nameKey n2) = true) :=
  ⟨by decide,
    (scan_files_sorted_by_narrow_key relSplitThree (strL "foo")
      (buildEntry relSplitThree (strL "foo") (strL "1.0.0")) (by decide)).1⟩

/-- Helper: lookup after a dict assignment. -/
theorem lookup_upsert (k k2 : Str) (v : RegionEntry)
    (m : List (Str × RegionEntry)) :
    lookupA (upsert k v m) k2 = if k = k2 then some v else lookupA m k2 := by
  induction m with
  | nil => rfl
  | cons p rest ih =>
    obtain ⟨k', v'⟩ := p
    show lookupA (if k' = k then (k, v) :: rest else (k', v') :: upsert k v rest) k2 = _
    by_cases hk : k' = k
    · subst hk
      rw [if_pos rfl]
      show (if k' = k2 then some v else lookupA rest k2) =
        if k' = k2 then some v
          else if k' = k2 then some v' else lookupA rest k2
      by_cases h2 : k' = k2
      · rw [if_pos h2, if_pos h2]
      · rw [if_neg h2, if_neg h2, if_neg h2]
    · rw [if_neg hk]
      show (if k' = k2 then some v' else lookupA (upsert k v rest) k2) =
        if k = k2 then some v
          else if k' = k2 then some v' else lookupA rest k2
      by_cases h2 : k' = k2
      · subst h2
        rw [if_pos rfl, if_neg (show k ≠ k' from fun he => hk he.symm), if_pos rfl]
      · rw [if_neg h2, if_neg h2, ih]

/-- Helper: the keys after a dict assignment. -/
theorem mem_keys_upsert (x k : Str) (v : RegionEntry)
    (m : List (Str × RegionEntry)) :
    x ∈ (upsert k v m).map Prod.fst ↔ x = k ∨ x ∈ m.map Prod.fst := by
  induction m with
  | nil => simp [upsert]
  | cons p rest ih =>
    obtain ⟨k', v'⟩ := p
    unfold upsert
    by_cases hk : k' = k
    · subst hk
      rw [if_pos rfl]
      simp only [List.map_cons, List.mem_cons]
      tauto
    · rw [if_neg hk]
      simp only [List.map_cons, List.mem_cons, ih]
      tauto

/-- Helper: dict assignment keeps the keys distinct. -/
theorem keys_nodup_upsert (k : Str) (v : RegionEntry)
    (m : List (Str × RegionEntry)) (h : (m.map Prod.fst).Nodup) :
    ((upsert k v m).map Prod.fst).Nodup := by
  induction m with
  | nil => simp [upsert]
  | cons p rest ih =>
    obtain ⟨k', v'⟩ := p
    rw [List.map_cons, List.nodup_cons] at h
    unfold upsert
    by_cases hk : k' = k
    · subst hk
      rw [if_pos rfl, List.map_cons, List.nodup_cons]
      exact h
    · rw [if_neg hk, List.map_cons, List.nodup_cons]
      refine ⟨?_, ih h.2⟩
      rw [mem_keys_upsert]
      rintro (he | hm)
      · exact hk he
      · exact h.1 hm

/-- Helper: a successful lookup means the key is present. -/
theorem lookup_mem_keys {m : List (Str × RegionEntry)} {k : Str}
    {e : RegionEntry} (h : lookupA m k = some e) : k ∈ m.map Prod.fst := by
  induction m with
  | nil => cases h
  | cons p rest ih =>
    obtain ⟨k', v'⟩ := p
    unfold lookupA at h
    by_cases hk : k' = k
    · subst hk
      rw [List.map_cons]
      exact List.mem_cons_self _ _
    · rw [if_neg hk] at h
      rw [List.map_cons]
      exact List.mem_cons_of_mem _ (ih h)

/-- Helper: the last value `filterMap` produces comes from the last
element on which `f` fires. -/
theorem filterMap_getLast?_eq {α β : Type} (f : α → Option β) (l : List α) :
    (l.filterMap f).getLast? =
      ((l.filter (fun a => (f a).isSome)).getLast?).bind f := by
  induction l with
  | nil => rfl
  | cons a rest ih =>
    cases hfa : f a with
    | none =>
      rw [List.filterMap_cons_none hfa,
        List.filter_cons_of_neg (by simp [hfa]), ih]
    | some b =>
      rw [List.filterMap_cons_some hfa,
        List.filter_cons_of_pos (by simp [hfa])]
      cases h1 : rest.filterMap f with
      | nil =>
        have h2 : rest.filter (fun a => (f a).isSome) = [] := by
          rw [List.filter_eq_nil_iff]
          intro x hx hs
          obtain ⟨y, hy⟩ := Option.isSome_iff_exists.mp hs
          have hmem : y ∈ rest.filterMap f := List.mem_filterMap.mpr ⟨x, hx, hy⟩
          rw [h1] at hmem
          cases hmem
        rw [h2]
        simp [hfa]
      | cons c cs =>
        have h2 : rest.filter (fun a => (f a).isSome) ≠ [] := by
          intro hcon
          have h4 : rest.filterMap f = [] := by
            rw [List.filterMap_eq_nil_iff]
            intro x hx
            by_contra hne
            have hs : (f x).isSome := Option.ne_none_iff_isSome.mp hne
            have hmem : x ∈ rest.filter (fun a => (f a).isSome) :=
              List.mem_filter.mpr ⟨hx, hs⟩
            rw [hcon] at hmem
            cases hmem
          rw [h1] at h4
          cases h4
        obtain ⟨d, ds, h3⟩ := List.exists_cons_of_ne_nil h2
        rw [h3]
        have ih2 := ih
        rw [h1, h3] at ih2
        exact ih2

/-- Helper: after the release loop, a key maps to the entry of the last
release that produced that key. -/
theorem lookup_scanFold (rs : List Release) (k : Str) :
    ∀ acc, lookupA (rs.foldl scanStep acc) k =
      (match (rs.filterMap (releaseKeyed k)).getLast? with
        | some e => some e
        | none => lookupA acc k) := by
  induction rs with
  | nil => intro acc; rfl
  | cons r rest ih =>
    intro acc
    rw [List.foldl_cons, ih]
    cases hpr : processRelease r with
    | none =>
      have hstep : scanStep acc r = acc := by simp [scanStep, hpr]
      have hrk : releaseKeyed k r = none := by simp [releaseKeyed, hpr]
      rw [hstep, List.filterMap_cons_none hrk]
    | some ke =>
      obtain ⟨k', e⟩ := ke
      have hstep : scanStep acc r = upsert k' e acc := by simp [scanStep, hpr]
      rw [hstep]
      by_cases hk : k' = k
      · subst hk
        have hrk : releaseKeyed k' r = some e := by simp [releaseKeyed, hpr]
        rw [List.filterMap_cons_some hrk]
        cases h1 : rest.filterMap (releaseKeyed k') with
        | nil => simp [lookup_upsert]
        | cons c cs => rfl
      · have hrk : releaseKeyed k r = none := by simp [releaseKeyed, hpr, hk]
        rw [List.filterMap_cons_none hrk, lookup_upsert, if_neg hk]

/-- Helper: the keys of `scan_releases` are pairwise distinct. -/
theorem scan_keys_nodup (rs : List Release) :
    ((scan_releases rs).map Prod.fst).Nodup := by
  have main : ∀ acc, (acc.map Prod.fst).Nodup →
      (((rs.foldl scanStep acc)).map Prod.fst).Nodup := by
    induction rs with
    | nil => intro acc h; exact h
    | cons r rest ih =>
      intro acc h
      rw [List.foldl_cons]
      refine ih _ ?_
      cases hpr : processRelease r with
      | none => simpa [scanStep, hpr] using h
      | some ke =>
        obtain ⟨k', e⟩ := ke
        have hstep : scanStep acc r = upsert k' e acc := by simp [scanStep, hpr]
        rw [hstep]
        exact keys_nodup_upsert k' e acc h
  exact main [] (by simp)

/-- Helper: in a duplicate-free list, a member occurs exactly once. -/
theorem count_eq_one_of_nodup_mem {l : List Str} {a : Str} (hnd : l.Nodup)
    (ha : a ∈ l) : l.count a = 1 := by
  induction l with
  | nil => cases ha
  | cons b bs ih =>
    rw [List.nodup_cons] at hnd
    rw [List.count_cons]
    by_cases hab : a = b
    · subst hab
      have h0 : bs.count a = 0 := by
        rw [List.count_eq_zero]
        exact hnd.1
      rw [h0, if_pos (by simp)]
    · have ha2 : a ∈ bs := by
        rcases List.mem_cons.mp ha with h | h
        · exact absurd h hab
        · exact h
      rw [ih hnd.2 ha2,
        if_neg (by simp only [beq_iff_eq]; exact fun h => hab h.symm)]

/-- C9: when two or more releases resolve to the same region key, the
mapping built by `scan_releases` holds exactly one entry for that key,
and it is the entry built from whichever of those releases appears last
in the release list — earlier ones are overwritten wholesale. -/
theorem scan_releases_last_duplicate_wins (rs : List Release) (k : Str)
    (r : Release)
    (hdup : 2 ≤ (rs.filter (fun x => (releaseKeyed k x).isSome)).length)
    (hlast : (rs.filter (fun x => (releaseKeyed k x).isSome)).getLast? = some r) :
    ((scan_releases rs).map Prod.fst).count k = 1 ∧
    lookupA (scan_releases rs) k = releaseKeyed k r := by
  have hsome : (releaseKeyed k r).isSome := by
    have hmemf := List.mem_of_mem_getLast? hlast
    exact (List.mem_filter.mp hmemf).2
  obtain ⟨e, he⟩ := Option.isSome_iff_exists.mp hsome
  have hlook : lookupA (scan_releases rs) k = releaseKeyed k r := by
    unfold scan_releases
    rw [lookup_scanFold rs k [], filterMap_getLast?_eq, hlast]
    simp [he]
  refine ⟨?_, hlook⟩
  have hmem : k ∈ (scan_releases rs).map Prod.fst :=
    lookup_mem_keys (by rw [hlook, he])
  exact count_eq_one_of_nodup_mem (scan_keys_nodup rs) hmem

/-- Witness for C9: two releases tagged "foo-v1.0.0" collide on key "foo"
and the second one wins. -/
theorem scan_releases_last_duplicate_wins_witness :
    2 ≤ ([relTwoSqlite, relSplitThree].filter
      (fun x => (releaseKeyed (strL "foo") x).isSome)).length ∧
    ([relTwoSqlite, relSplitThree].filter
      (fun x => (releaseKeyed (strL "foo") x).isSome)).getLast? =
        some relSplitThree ∧
    lookupA (scan_releases [relTwoSqlite, relSplitThree]) (strL "foo") =
      releaseKeyed (strL "foo") relSplitThree :=
  ⟨by decide, by decide,
    (scan_releases_last_duplicate_wins [relTwoSqlite, relSplitThree]
      (strL "foo") relSplitThree (by decide) (by decide)).2⟩

/-- Helper: the pagination loop, started at any page with enough fuel,
requests consecutive pages up to and including the first stopping page and
collects every successful page list seen. -/
theorem fetchLoop_spec (feed : Nat → PageResp) (pageData : Nat → List Release) :
    ∀ (k start fuel : Nat), k < fuel →
    (∀ i, i < k → feed (start + i) = .ok (pageData (start + i)) ∧
      (pageData (start + i)).length = per_page) →
    isLastPage (feed (start + k)) →
    fetchLoop feed fuel start =
      (((List.range' start k).map pageData).join ++ pageContent (feed (start + k)),
        List.range' start (k + 1)) := by
  intro k
  induction k with
  | zero =>
    intro start fuel hf hfull hstop
    obtain ⟨f, rfl⟩ : ∃ f, fuel = f + 1 := ⟨fuel - 1, by omega⟩
    rw [Nat.add_zero] at hstop
    show fetchLoop feed (f + 1) start = _
    unfold fetchLoop
    cases hfeed : feed start with
    | fail =>
      dsimp only
      simp [pageContent, hfeed, List.range']
    | ok rs =>
      rw [hfeed] at hstop
      unfold isLastPage at hstop
      dsimp only at hstop
      dsimp only
      by_cases h0 : rs.length = 0
      · rw [if_pos h0]
        have hrs : rs = [] := List.length_eq_zero.mp h0
        subst hrs
        simp [pageContent, hfeed, List.range']
      · rw [if_neg h0, if_pos hstop]
        simp [pageContent, hfeed, List.range']
  | succ k ih =>
    intro start fuel hf hfull hstop
    obtain ⟨f, rfl⟩ : ∃ f, fuel = f + 1 := ⟨fuel - 1, by omega⟩
    unfold fetchLoop
    have h1 := hfull 0 (by omega)
    rw [Nat.add_zero] at h1
    rw [h1.1]
    dsimp only
    rw [if_neg (by rw [h1.2]; decide), if_neg (by rw [h1.2]; decide)]
    have hfull' : ∀ i, i < k → feed (start + 1 + i) = .ok (pageData (start + 1 + i)) ∧
        (pageData (start + 1 + i)).length = per_page := by
      intro i hi
      have h2 := hfull (i + 1) (by omega)
      rw [show start + (i + 1) = start + 1 + i by omega] at h2
      exact h2
    have hstop' : isLastPage (feed (start + 1 + k)) := by
      rw [show start + 1 + k = start + (k + 1) by omega]
      exact hstop
    rw [ih (start + 1) f (by omega) hfull' hstop']
    dsimp only
    rw [show start + (k + 1) = start + 1 + k by omega]
    show (pageData start ++
        (((List.range' (start + 1) k).map pageData).join ++
          pageContent (feed (start + 1 + k))),
        start :: List.range' (start + 1) (k + 1)) =
      ((pageData start :: (List.range' (start + 1) k).map pageData).join ++
        pageContent (feed (start + 1 + k)),
        start :: List.range' (start + 1) (k + 1))
    simp [List.append_assoc]

/-- C7: `fetch_releases` requests pages 1, 2, ... in order and stops right
after the first page whose response fails, is empty, or is shorter than
the fixed page size; it returns the concatenation of all page lists
received from successful pages up to that point (a failure discards
nothing already collected), and the request trace is exactly [1..n]. -/
theorem fetch_releases_pagination (feed : Nat → PageResp)
    (pageData : Nat → List Release) (n fuel : Nat)
    (hn : 1 ≤ n) (hfuel : n ≤ fuel)
    (hfull : ∀ p, 1 ≤ p → p < n →
      feed p = .ok (pageData p) ∧ (pageData p).length = per_page)
    (hstop : isLastPage (feed n)) :
    fetch_releases feed fuel =
      (((List.range' 1 (n - 1)).map pageData).join ++ pageContent (feed n),
        List.range' 1 n) := by
  have hspec := fetchLoop_spec feed pageData (n - 1) 1 fuel (by omega)
    (by
      intro i hi
      exact hfull (1 + i) (by omega) (by omega))
    (by rw [show 1 + (n - 1) = n by omega]; exact hstop)
  unfold fetch_releases
  rw [hspec, show 1 + (n - 1) = n by omega, show n - 1 + 1 = n by omega]

/-- Witness for C7: a two-page feed whose page 2 is short stops after page
2 — the request trace is [1, 2], with no third request. -/
theorem fetch_releases_pagination_witness :
    fetch_releases feedTwoPages 5 =
      (List.replicate 100 padRelease ++ [relTwoSqlite], [1, 2]) ∧
    feedTwoPages 2 = .ok [relTwoSqlite] ∧
    ([relTwoSqlite] : List Release).length < per_page :=
  ⟨by
    have h := fetch_releases_pagination feedTwoPages
      (fun _ => List.replicate 100 padRelease) 2 5 (by decide) (by decide)
      (by
        intro p h1 h2
        have hp : p = 1 := by omega
        subst hp
        exact ⟨rfl, by simp [per_page]⟩)
      (by decide)
    rw [h]
    rfl,
    rfl, by decide⟩

/-- Helper: takeWhile over an all-satisfying prefix. -/
theorem takeWhile_all_append (p : Char → Bool) (l r : Str)
    (hl : ∀ c ∈ l, p c = true) :
    (l ++ r).takeWhile p = l ++ r.takeWhile p := by
  induction l with
  | nil => rfl
  | cons c cs ih =>
    rw [List.cons_append, List.takeWhile_cons, hl c (List.mem_cons_self _ _),
      if_pos rfl, ih (fun x hx => hl x (List.mem_cons_of_mem _ hx)),
      List.cons_append]

/-- Helper: dropWhile over an all-satisfying prefix. -/
theorem dropWhile_all_append (p : Char → Bool) (l r : Str)
    (hl : ∀ c ∈ l, p c = true) :
    (l ++ r).dropWhile p = r.dropWhile p := by
  induction l with
  | nil => rfl
  | cons c cs ih =>
    rw [List.cons_append, List.dropWhile_cons, hl c (List.mem_cons_self _ _),
      if_pos rfl]
    exact ih (fun x hx => hl x (List.mem_cons_of_mem _ hx))

/-- Helper: a dotted triple of nonempty digit runs matches the version
pattern. -/
theorem parseVer_of_shape (d1 d2 d3 : Str) (h1 : d1 ≠ []) (h2 : d2 ≠ [])
    (h3 : d3 ≠ []) (g1 : ∀ c ∈ d1, isDigitC c = true)
    (g2 : ∀ c ∈ d2, isDigitC c = true) (g3 : ∀ c ∈ d3, isDigitC c = true) :
    parseVer (d1 ++ '.' :: (d2 ++ '.' :: d3)) = true := by
  have hdot : isDigitC '.' = false := by decide
  have e1 : (d1 ++ '.' :: (d2 ++ '.' :: d3)).takeWhile isDigitC = d1 := by
    rw [takeWhile_all_append isDigitC d1 _ g1, List.takeWhile_cons, hdot]
    simp
  have e2 : (d1 ++ '.' :: (d2 ++ '.' :: d3)).dropWhile isDigitC =
      '.' :: (d2 ++ '.' :: d3) := by
    rw [dropWhile_all_append isDigitC d1 _ g1, List.dropWhile_cons, hdot]
    simp
  have e3 : (d2 ++ '.' :: d3).takeWhile isDigitC = d2 := by
    rw [takeWhile_all_append isDigitC d2 _ g2, List.takeWhile_cons, hdot]
    simp
  have e4 : (d2 ++ '.' :: d3).dropWhile isDigitC = '.' :: d3 := by
    rw [dropWhile_all_append isDigitC d2 _ g2, List.dropWhile_cons, hdot]
    simp
  have e5 : d3.takeWhile isDigitC = d3 := List.takeWhile_eq_self_iff.mpr g3
  have e6 : d3.dropWhile isDigitC = [] := List.dropWhile_eq_nil_iff.mpr g3
  unfold parseVer
  rw [e1, e2]
  dsimp only
  rw [e3, e4]
  dsimp only
  rw [e5, e6]
  simp [h1, h2, h3]

/-- Helper: anything matching the version pattern is a dotted triple of
nonempty digit runs. -/
theorem parseVer_shape {w : Str} (h : parseVer w = true) :
    ∃ d1 d2 d3 : Str, d1 ≠ [] ∧ d2 ≠ [] ∧ d3 ≠ [] ∧
      (∀ c ∈ d1, isDigitC c = true) ∧ (∀ c ∈ d2, isDigitC c = true) ∧
      (∀ c ∈ d3, isDigitC c = true) ∧
      w = d1 ++ '.' :: (d2 ++ '.' :: d3) := by
  unfold parseVer at h
  rw [Bool.and_eq_true] at h
  obtain ⟨h1, h2⟩ := h
  rw [decide_eq_true_eq] at h1
  cases hr1 : w.dropWhile isDigitC with
  | nil => rw [hr1] at h2; simp at h2
  | cons c1 r1 =>
    rw [hr1] at h2
    dsimp only at h2
    rw [Bool.and_eq_true, Bool.and_eq_true] at h2
    obtain ⟨⟨hc1, hd2⟩, h3⟩ := h2
    rw [decide_eq_true_eq] at hc1
    rw [decide_eq_true_eq] at hd2
    cases hr2 : r1.dropWhile isDigitC with
    | nil => rw [hr2] at h3; simp at h3
    | cons c2 r2 =>
      rw [hr2] at h3
      dsimp only at h3
      rw [Bool.and_eq_true, Bool.and_eq_true] at h3
      obtain ⟨⟨hc2, hd3⟩, h4⟩ := h3
      rw [decide_eq_true_eq] at hc2
      rw [decide_eq_true_eq] at hd3
      rw [decide_eq_true_eq] at h4
      refine ⟨w.takeWhile isDigitC, r1.takeWhile isDigitC, r2, h1, hd2, ?_, ?_, ?_, ?_, ?_⟩
      · intro hcon
        rw [hcon] at hd3
        exact hd3 rfl
      · intro c hc
        exact List.mem_takeWhile_imp hc
      · intro c hc
        exact List.mem_takeWhile_imp hc
      · intro c hc
        have e : r2.takeWhile isDigitC ++ r2.dropWhile isDigitC = r2 :=
          List.takeWhile_append_dropWhile isDigitC r2
        rw [h4, List.append_nil] at e
        rw [← e] at hc
        exact List.mem_takeWhile_imp hc
      · subst hc1
        subst hc2
        have ew : w.takeWhile isDigitC ++ '.' :: r1 = w := by
          rw [← hr1]
          exact List.takeWhile_append_dropWhile isDigitC w
        have er1 : r1.takeWhile isDigitC ++ '.' :: r2 = r1 := by
          rw [← hr2]
          exact List.takeWhile_append_dropWhile isDigitC r1
        conv_lhs => rw [← ew]
        conv_lhs => rw [← er1]

/-- Helper: a version match contains only digits and dots. -/
theorem parseVer_chars {w : Str} (h : parseVer w = true) :
    ∀ c ∈ w, isDigitC c = true ∨ c = '.' := by
  obtain ⟨d1, d2, d3, _, _, _, g1, g2, g3, heq⟩ := parseVer_shape h
  subst heq
  intro c hc
  rcases List.mem_append.mp hc with hm | hm
  · exact Or.inl (g1 c hm)
  · rcases List.mem_cons.mp hm with hm2 | hm2
    · exact Or.inr hm2
    · rcases List.mem_append.mp hm2 with hm3 | hm3
      · exact Or.inl (g2 c hm3)
      · rcases List.mem_cons.mp hm3 with hm4 | hm4
        · exact Or.inr hm4
        · exact Or.inl (g3 c hm4)

/-- Helper: a string containing 'v' never matches the version pattern. -/
theorem parseVer_no_v {w : Str} (hv : 'v' ∈ w) : parseVer w = false := by
  by_contra hcon
  rw [Bool.not_eq_false] at hcon
  rcases parseVer_chars hcon 'v' hv with hd | hd
  · exact absurd hd (by decide)
  · exact absurd hd (by decide)

/-- Helper: inversion of the `-v<version>` tail match. -/
theorem vSuffixMatch_inv {r w : Str} (h : vSuffixMatch r = some w) :
    r = '-' :: 'v' :: w ∧ parseVer w = true := by
  match r with
  | [] => cases h
  | [c] => cases h
  | c1 :: c2 :: rest =>
    have h' : (if c1 = '-' ∧ c2 = 'v' ∧ parseVer rest = true
        then some rest else none) = some w := h
    by_cases hcond : c1 = '-' ∧ c2 = 'v' ∧ parseVer rest = true
    · rw [if_pos hcond] at h'
      injection h' with h''
      subst h''
      exact ⟨by rw [hcond.1, hcond.2.1], hcond.2.2⟩
    · rw [if_neg hcond] at h'
      cases h' 

/-- Helper: the `-v<version>` tail match fails at every split point that
still has token characters left before the real `-v` separator. -/
theorem vSuffix_inside_none (t' ver : Str) (ht : t' ≠ []) :
    vSuffixMatch (t' ++ '-' :: 'v' :: ver) = none := by
  cases t' with
  | nil => exact absurd rfl ht
  | cons a t1 =>
    cases t1 with
    | nil =>
      show (if a = '-' ∧ '-' = 'v' ∧ parseVer ('v' :: ver) = true
          then some ('v' :: ver) else none) = none
      rw [if_neg]
      rintro ⟨-, h2, -⟩
      exact absurd h2 (by decide)
    | cons b t'' =>
      show (if a = '-' ∧ b = 'v' ∧ parseVer (t'' ++ '-' :: 'v' :: ver) = true
          then some (t'' ++ '-' :: 'v' :: ver) else none) = none
      rw [if_neg]
      rintro ⟨-, -, h3⟩
      have hv : 'v' ∈ t'' ++ '-' :: 'v' :: ver := by
        rw [List.mem_append]
        exact Or.inr (List.mem_cons_of_mem _ (List.mem_cons_self _ _))
      rw [parseVer_no_v hv] at h3
      cases h3

/-- Helper: the non-greedy group stops exactly at the real `-v` separator
for any newline-free nonempty token. -/
theorem tagGo_spec (ver : Str) (hver : parseVer ver = true) :
    ∀ (t : Str) (acc : Str), t ≠ [] → (∀ c ∈ t, c ≠ '\n') →
    tagMatchGo acc (t ++ '-' :: 'v' :: ver) = some (acc ++ t, ver) := by
  intro t
  induction t with
  | nil => intro acc hne _; exact absurd rfl hne
  | cons c t' ih =>
    intro acc _ hnl
    show tagMatchGo acc (c :: (t' ++ '-' :: 'v' :: ver)) = _
    unfold tagMatchGo
    rw [if_neg (hnl c (List.mem_cons_self _ _))]
    cases ht' : t' with
    | nil =>
      subst ht'
      have hm : vSuffixMatch ([] ++ '-' :: 'v' :: ver) = some ver := by
        show (if '-' = '-' ∧ 'v' = 'v' ∧ parseVer ver = true
            then some ver else none) = some ver
        rw [if_pos ⟨rfl, rfl, hver⟩]
      rw [hm]
    | cons b t'' =>
      subst ht'
      rw [vSuffix_inside_none (b :: t'') ver (by intro hcon; cases hcon)]
      dsimp only
      have hrec := ih (acc ++ [c]) (by intro hcon; cases hcon)
        (fun x hx => hnl x (List.mem_cons_of_mem _ hx))
      rw [hrec, List.append_assoc]
      rfl

/-- Helper: a version match ends in a digit. -/
theorem parseVer_getLast_digit {ver : Str} (h : parseVer ver = true) :
    ∃ c, ver.getLast? = some c ∧ isDigitC c = true := by
  obtain ⟨d1, d2, d3, h1, h2, h3, g1, g2, g3, heq⟩ := parseVer_shape h
  subst heq
  rw [List.getLast?_append_of_ne_nil d1 (by intro hcon; cases hcon)]
  rw [show ('.' :: (d2 ++ '.' :: d3) : Str) = ['.'] ++ (d2 ++ '.' :: d3) from rfl]
  rw [List.getLast?_append_of_ne_nil ['.'] (by
    intro hcon
    obtain ⟨-, hcon2⟩ := List.append_eq_nil.mp hcon
    cases hcon2)]
  rw [List.getLast?_append_of_ne_nil d2 (by intro hcon; cases hcon)]
  rw [show ('.' :: d3 : Str) = ['.'] ++ d3 from rfl]
  rw [List.getLast?_append_of_ne_nil ['.'] h3]
  cases hd : d3.getLast? with
  | none => exact absurd (List.getLast?_eq_none_iff.mp hd) h3
  | some c => exact ⟨c, rfl, g3 c (List.mem_of_mem_getLast? hd)⟩

/-- Helper: a string ending in a version match has no trailing newline, so
`stripNL` leaves it unchanged. -/
theorem stripNL_of_parseVer (x ver : Str) (hv : parseVer ver = true) :
    stripNL (x ++ ver) = x ++ ver := by
  obtain ⟨c, hc, hdig⟩ := parseVer_getLast_digit hv
  have hne : ver ≠ [] := by intro hcon; rw [hcon] at hc; cases hc
  unfold stripNL
  rw [if_neg]
  intro hcon
  rw [List.getLast?_append_of_ne_nil x hne, hc] at hcon
  injection hcon with h'
  rw [h'] at hdig
  exact absurd hdig (by decide)

/-- Helper: `stripNL` removes exactly one trailing newline. -/
theorem stripNL_concat_newline (x : Str) : stripNL (x ++ ['\n']) = x := by
  unfold stripNL
  rw [List.getLast?_concat, if_pos rfl, List.dropLast_concat]

/-- Helper: any successful tag match decomposes the input into a nonempty
newline-free group, the `-v` separator, and a version-shaped tail. -/
theorem tagGo_sound : ∀ (s acc p v : Str), tagMatchGo acc s = some (p, v) →
    ∃ q, q ≠ [] ∧ (∀ c ∈ q, c ≠ '\n') ∧ s = q ++ '-' :: 'v' :: v ∧
      p = acc ++ q ∧ parseVer v = true := by
  intro s
  induction s with
  | nil => intro acc p v h; cases h
  | cons c rest ih =>
    intro acc p v h
    unfold tagMatchGo at h
    by_cases hnl : c = '\n'
    · rw [if_pos hnl] at h; cases h
    · rw [if_neg hnl] at h
      cases hm : vSuffixMatch rest with
      | some w =>
        rw [hm] at h
        dsimp only at h
        injection h with h'
        have hp : acc ++ [c] = p := congrArg Prod.fst h'
        have hv : w = v := congrArg Prod.snd h'
        subst hv
        obtain ⟨hrest, hpv⟩ := vSuffixMatch_inv hm
        refine ⟨[c], ?_, ?_, ?_, ?_, ?_⟩
        · intro hcon; cases hcon
        · intro x hx
          rw [List.mem_singleton] at hx
          subst hx
          exact hnl
        · rw [hrest]; rfl
        · exact hp.symm
        · exact hpv
      | none =>
        rw [hm] at h
        dsimp only at h
        obtain ⟨q, hq, hqnl, hrest, hpacc, hpv⟩ := ih (acc ++ [c]) p v h
        refine ⟨c :: q, ?_, ?_, ?_, ?_, ?_⟩
        · intro hcon; cases hcon
        · intro x hx
          rcases List.mem_cons.mp hx with hx2 | hx2
          · subst hx2; exact hnl
          · exact hqnl x hx2
        · rw [List.cons_append, hrest]
        · rw [hpacc, List.append_assoc]
          rfl
        · exact hpv

/-- C6 (amended): for every NONEMPTY newline-free token t and nonempty
digit runs X, Y, Z, the tag parser maps t ++ "-v" ++ "X.Y.Z" to
(t, "X.Y.Z") — hyphens and digits inside t included — and gives the same
result when one trailing newline follows, since `$` also matches there;
and every string which, once at most one trailing newline is removed, has
no `<nonempty newline-free token>-v<digits>.<digits>.<digits>`
decomposition yields no-match rather than an error. -/
theorem extract_region_from_tag_spec :
    (∀ (t d1 d2 d3 : Str), t ≠ [] → (∀ c ∈ t, c ≠ '\n') →
      d1 ≠ [] → d2 ≠ [] → d3 ≠ [] →
      (∀ c ∈ d1, isDigitC c = true) → (∀ c ∈ d2, isDigitC c = true) →
      (∀ c ∈ d3, isDigitC c = true) →
      extract_region_from_tag
          (t ++ strL "-v" ++ (d1 ++ '.' :: (d2 ++ '.' :: d3))) =
        some (t, d1 ++ '.' :: (d2 ++ '.' :: d3)) ∧
      extract_region_from_tag
          (t ++ strL "-v" ++ (d1 ++ '.' :: (d2 ++ '.' :: d3)) ++ strL "\n") =
        some (t, d1 ++ '.' :: (d2 ++ '.' :: d3))) ∧
    (∀ s : Str,
      (¬ ∃ p d1 d2 d3 : Str, p ≠ [] ∧ (∀ c ∈ p, c ≠ '\n') ∧
        d1 ≠ [] ∧ d2 ≠ [] ∧ d3 ≠ [] ∧
        (∀ c ∈ d1, isDigitC c = true) ∧ (∀ c ∈ d2, isDigitC c = true) ∧
        (∀ c ∈ d3, isDigitC c = true) ∧
        stripNL s = p ++ strL "-v" ++ (d1 ++ '.' :: (d2 ++ '.' :: d3))) →
      extract_region_from_tag s = none) := by
  constructor
  · intro t d1 d2 d3 ht hnl h1 h2 h3 g1 g2 g3
    have hver := parseVer_of_shape d1 d2 d3 h1 h2 h3 g1 g2 g3
    have hmain := tagGo_spec (d1 ++ '.' :: (d2 ++ '.' :: d3)) hver t [] ht hnl
    constructor
    · unfold extract_region_from_tag
      rw [stripNL_of_parseVer (t ++ strL "-v") _ hver]
      rw [show t ++ strL "-v" ++ (d1 ++ '.' :: (d2 ++ '.' :: d3)) =
          t ++ '-' :: 'v' :: (d1 ++ '.' :: (d2 ++ '.' :: d3)) by
        rw [List.append_assoc]; rfl]
      rw [hmain]
      rfl
    · unfold extract_region_from_tag
      rw [show (strL "\n" : Str) = ['\n'] from rfl, stripNL_concat_newline]
      rw [show t ++ strL "-v" ++ (d1 ++ '.' :: (d2 ++ '.' :: d3)) =
          t ++ '-' :: 'v' :: (d1 ++ '.' :: (d2 ++ '.' :: d3)) by
        rw [List.append_assoc]; rfl]
      rw [hmain]
      rfl
  · intro s hno
    cases hres : extract_region_from_tag s with
    | none => rfl
    | some pv =>
      obtain ⟨p, v⟩ := pv
      unfold extract_region_from_tag at hres
      obtain ⟨q, hq, hqnl, hs, hpq, hpv⟩ := tagGo_sound (stripNL s) [] p v hres
      obtain ⟨d1, d2, d3, h1, h2, h3, g1, g2, g3, hveq⟩ := parseVer_shape hpv
      exact absurd
        ⟨q, d1, d2, d3, hq, hqnl, h1, h2, h3, g1, g2, g3, by
          rw [hs, hveq, List.append_assoc]
          rfl⟩
        hno

/-- C6 (counterexample): the claim fails in both directions — the empty
token t = "" with X = Y = Z = 0 gives no-match instead of ("", "0.0.0")
because `(.+?)` needs at least one character; a token with a newline also
gives no-match because `.` does not match a newline; and "x-v1.2.3\n",
which does not end in a `-v<digits>.<digits>.<digits>` suffix, still
matches as ("x", "1.2.3") because `$` also matches before one trailing
newline. -/
theorem extract_region_from_tag_claim_falsifiers :
    extract_region_from_tag (strL "" ++ strL "-v" ++ strL "0.0.0") ≠
      some (strL "", strL "0.0.0") ∧
    extract_region_from_tag (strL "-v0.0.0") = none ∧
    extract_region_from_tag (strL "a\nb" ++ strL "-v" ++ strL "1.2.3") ≠
      some (strL "a\nb", strL "1.2.3") ∧
    extract_region_from_tag (strL "a\nb-v1.2.3") = none ∧
    extract_region_from_tag (strL "x-v1.2.3\n") =
      some (strL "x", strL "1.2.3") :=
  ⟨by decide, by decide, by decide, by decide, by decide⟩

/-- Witness for C6 at the docstring example "hawaii-v2.2.0", with and
without a trailing newline. -/
theorem extract_region_from_tag_spec_witness :
    extract_region_from_tag
        (strL "hawaii" ++ strL "-v" ++
          (strL "2" ++ '.' :: (strL "2" ++ '.' :: strL "0"))) =
      some (strL "hawaii", strL "2" ++ '.' :: (strL "2" ++ '.' :: strL "0")) ∧
    extract_region_from_tag
        (strL "hawaii" ++ strL "-v" ++
          (strL "2" ++ '.' :: (strL "2" ++ '.' :: strL "0")) ++ strL "\n") =
      some (strL "hawaii", strL "2" ++ '.' :: (strL "2" ++ '.' :: strL "0")) :=
  extract_region_from_tag_spec.1 (strL "hawaii") (strL "2") (strL "2")
    (strL "0") (by decide) (by decide) (by decide) (by decide) (by decide)
    (by decide) (by decide) (by decide)
